import Mathlib

/-!
Verification development for the `rtthost` RTT terminal viewer
(`src/mailman/src/app.rs`).  Strings are embedded as `List Char`, byte
buffers as `List UInt8`; panics (`unwrap`, out-of-range indexing) are
modelled by `Option`, transport outcomes by explicit oracle values.
-/

set_option maxHeartbeats 1000000

abbrev Str := List Char

/-- Rust `str::split('\n')`: splits on every newline, keeping empty pieces,
with a trailing empty piece when the string ends in a newline. -/
def splitNl : Str → List Str
  | [] => [[]]
  | c :: rest =>
    if c = '\n' then [] :: splitNl rest
    else
      match splitNl rest with
      | [] => [[c]]
      | p :: ps => (c :: p) :: ps

/-- Number of newline characters in a string. -/
def countNl : Str → Nat
  | [] => 0
  | c :: rest => (if c = '\n' then 1 else 0) + countNl rest

/-- The Unicode replacement character U+FFFD used by lossy decoding. -/
def repl : Char := '�'

/-- Is this byte a UTF-8 continuation byte (`0x80..=0xBF`)? -/
def isCont (b : UInt8) : Bool := 0x80 ≤ b.toNat && b.toNat ≤ 0xBF

/-- Admissible first continuation byte of a three-byte sequence
(restricted ranges for lead bytes `0xE0` and `0xED`). -/
def cont3First (lead : Nat) (b1 : UInt8) : Bool :=
  if lead = 0xE0 then 0xA0 ≤ b1.toNat && b1.toNat ≤ 0xBF
  else if lead = 0xED then 0x80 ≤ b1.toNat && b1.toNat ≤ 0x9F
  else isCont b1

/-- Admissible first continuation byte of a four-byte sequence
(restricted ranges for lead bytes `0xF0` and `0xF4`). -/
def cont4First (lead : Nat) (b1 : UInt8) : Bool :=
  if lead = 0xF0 then 0x90 ≤ b1.toNat && b1.toNat ≤ 0xBF
  else if lead = 0xF4 then 0x80 ≤ b1.toNat && b1.toNat ≤ 0x8F
  else isCont b1

/-- Rust `String::from_utf8_lossy`: total UTF-8 decoding where each maximal
invalid subpart is replaced by one U+FFFD, and a truncated sequence at the
end of the input yields a single U+FFFD. -/
def utf8Lossy : List UInt8 → Str
  | [] => []
  | b :: rest =>
    if b.toNat < 0x80 then Char.ofNat b.toNat :: utf8Lossy rest
    else if b.toNat < 0xC2 then repl :: utf8Lossy rest
    else if b.toNat ≤ 0xDF then
      match rest with
      | [] => [repl]
      | b1 :: rest1 =>
        if isCont b1 then
          Char.ofNat ((b.toNat - 0xC0) * 64 + (b1.toNat - 0x80)) :: utf8Lossy rest1
        else repl :: utf8Lossy (b1 :: rest1)
    else if b.toNat ≤ 0xEF then
      match rest with
      | [] => [repl]
      | b1 :: rest1 =>
        if cont3First b.toNat b1 then
          match rest1 with
          | [] => [repl]
          | b2 :: rest2 =>
            if isCont b2 then
              Char.ofNat ((b.toNat - 0xE0) * 4096 + (b1.toNat - 0x80) * 64 +
                (b2.toNat - 0x80)) :: utf8Lossy rest2
            else repl :: utf8Lossy (b2 :: rest2)
        else repl :: utf8Lossy (b1 :: rest1)
    else if b.toNat ≤ 0xF4 then
      match rest with
      | [] => [repl]
      | b1 :: rest1 =>
        if cont4First b.toNat b1 then
          match rest1 with
          | [] => [repl]
          | b2 :: rest2 =>
            if isCont b2 then
              match rest2 with
              | [] => [repl]
              | b3 :: rest3 =>
                if isCont b3 then
                  Char.ofNat ((b.toNat - 0xF0) * 262144 + (b1.toNat - 0x80) * 4096 +
                    (b2.toNat - 0x80) * 64 + (b3.toNat - 0x80)) :: utf8Lossy rest3
                else repl :: utf8Lossy (b3 :: rest3)
            else repl :: utf8Lossy (b2 :: rest2)
        else repl :: utf8Lossy (b1 :: rest1)
    else repl :: utf8Lossy rest

/-- ASCII encoding of a string, for concrete test inputs. -/
def asciiBytes (s : Str) : List UInt8 := s.map (fun c => UInt8.ofNat c.toNat)

/-- One channel tab of the application
(struct `ChannelState` in `app.rs`). -/
structure ChannelState where
  name : Str
  number : Nat
  has_down_channel : Bool
  messages : List Str
  input : Str
  scroll_offset : Nat
deriving Repr, DecidableEq, Inhabited

/-- `ChannelState::new`. -/
def ChannelState.new (name : Str) (number : Nat) (has_down_channel : Bool) :
    ChannelState :=
  { name := name, number := number, has_down_channel := has_down_channel,
    messages := [], input := [], scroll_offset := 0 }

/-- The mutable application state (struct `App` in `app.rs`); the terminal,
event queue and RTT handle are external and modelled at each call site. -/
structure App where
  tabs : List ChannelState
  current_tab : Nat
deriving Repr, DecidableEq

/-- An `App` as produced by `App::new`: the selected tabs, starting on tab 0. -/
def mkApp (tabs : List ChannelState) : App := { tabs := tabs, current_tab := 0 }

/-- Apply `f` to the element at index `i`, as Rust's `self.tabs[i] = ...`
style in-place mutation. -/
def modifyIdx (l : List α) (i : Nat) (f : α → α) : List α :=
  match l, i with
  | [], _ => []
  | a :: rest, 0 => f a :: rest
  | a :: rest, i + 1 => a :: modifyIdx rest i f

/-- `tabs.iter_mut().find(|t| t.number == channel)` followed by a mutation
of the found element; `none` when no tab matches (the source would then
panic in `unwrap`). -/
def updateFirstByNumber (l : List ChannelState) (channel : Nat)
    (f : ChannelState → ChannelState) : Option (List ChannelState) :=
  match l with
  | [] => none
  | t :: rest =>
    if t.number == channel then some (f t :: rest)
    else (updateFirstByNumber rest channel f).map (fun r => t :: r)

/-- Outcome of one `rtt.read` transport call: an error, or `Ok(count)`
together with the bytes placed in the buffer. -/
inductive ReadOutcome
  | err
  | ok (chunk : List UInt8)

/-- Outcome of one `rtt.write` transport call. -/
inductive WriteOutcome
  | err
  | ok

/-- `App::read_rtt_channel`, given the transport outcome for this poll.
`none` models a panic (`unwrap` on a channel number with no tab, or
indexing `tabs[current_tab]` out of range).  Mirrors the source order:
error → early return; zero bytes → early return; lossy-decode the chunk;
pop the *current* tab's last line and prepend it; split on newlines;
extend the tab whose `number` matches `channel`; if the *current* tab's
scroll offset is nonzero, bump it by `pieces - 1`. -/
def App.read_rtt_channel (app : App) (channel : Nat) (outcome : ReadOutcome) :
    Option App :=
  match outcome with
  | .err => some app
  | .ok chunk =>
    if chunk.length = 0 then some app
    else
      match app.tabs.get? app.current_tab with
      | none => none
      | some cur =>
        let decoded := utf8Lossy chunk
        let popped :=
          match cur.messages.getLast? with
          | some last =>
            (last, modifyIdx app.tabs app.current_tab
              (fun t => { t with messages := t.messages.dropLast }))
          | none => (([] : Str), app.tabs)
        let pieces := splitNl (popped.1 ++ decoded)
        match updateFirstByNumber popped.2 channel
            (fun t => { t with messages := t.messages ++ pieces }) with
        | none => none
        | some tabs2 =>
          let tabs3 :=
            if (tabs2.getD app.current_tab default).scroll_offset ≠ 0 then
              modifyIdx tabs2 app.current_tab
                (fun t => { t with scroll_offset :=
                  t.scroll_offset + (pieces.length - 1) })
            else tabs2
          some { app with tabs := tabs3 }

/-- The fixed transport read buffer length (`rtt_buffer: [u8; 1024]`). -/
def rttBufferSize : Nat := 1024

/-- The slice `&self.rtt_buffer[..count]` handed to the lossy decoder. -/
def sliceChunk (buffer : List UInt8) (count : Nat) : List UInt8 :=
  buffer.take count

/-- `App::read_rtt_channel` expressed on the raw buffer and byte count the
transport reported. -/
def App.read_rtt_raw (app : App) (channel : Nat) (buffer : List UInt8)
    (count : Nat) : Option App :=
  app.read_rtt_channel channel (.ok (sliceChunk buffer count))

/-- `App::poll_rtt`: collect the tab numbers, then poll each — but the source
only issues a read when the channel number equals 2. -/
def App.poll_rtt (app : App) (transport : Nat → ReadOutcome) : Option App :=
  (app.tabs.map (fun t => t.number)).foldlM
    (fun a channel =>
      if channel == 2 then a.read_rtt_channel channel (transport channel)
      else some a)
    app

/-- The application state with the current tab's input buffer cleared
(`self.tabs[self.current_tab].input.clear()`). -/
def App.clearInput (app : App) : App :=
  let tabs1 := modifyIdx app.tabs app.current_tab
    (fun u => { u with input := [] })
  { app with tabs := tabs1 }

/-- `App::push_rtt`, given the transport write outcome.  The source calls
`.unwrap()` on the write, so a failed write is a panic (`none`); on success
the current tab's input is cleared; with no down channel it is a no-op. -/
def App.push_rtt (app : App) (w : WriteOutcome) : Option App :=
  match app.tabs.get? app.current_tab with
  | none => none
  | some t =>
    if t.has_down_channel then
      match w with
      | .ok => some app.clearInput
      | .err => none
    else some app

/-- Operator input events recognised by `App::handle_event`
(termion `Key` values, with all unhandled keys collapsed into `other`). -/
inductive Key
  | ctrlC
  | F (n : Nat)
  | char (c : Char)
  | backspace
  | pageUp
  | pageDown
  | other

/-- `App::handle_event`: returns the updated state and the should-exit flag;
`none` models a panic (indexing `tabs[current_tab]` out of range, the
`n as usize - 1` underflow on `F(0)`, or a panicking `push_rtt`).  Mirrors
the source: Ctrl-C exits; `F(n)` selects tab `n - 1` when in range; `'\n'`
submits via `push_rtt`; any other character is pushed onto the current
tab's input; backspace pops it; PageUp/PageDown adjust the scroll offset. -/
def App.handle_event (app : App) (k : Key) (w : WriteOutcome) :
    Option (App × Bool) :=
  match k with
  | .ctrlC => some (app, true)
  | .F n =>
    if n = 0 then none
    else if n - 1 < app.tabs.length then
      some ({ app with current_tab := n - 1 }, false)
    else some (app, false)
  | .char c =>
    if c = '\n' then (app.push_rtt w).map (fun a => (a, false))
    else
      match app.tabs.get? app.current_tab with
      | none => none
      | some _ =>
        let tabs1 := modifyIdx app.tabs app.current_tab
          (fun t => { t with input := t.input ++ [c] })
        some ({ app with tabs := tabs1 }, false)
  | .backspace =>
    match app.tabs.get? app.current_tab with
    | none => none
    | some _ =>
      let tabs1 := modifyIdx app.tabs app.current_tab
        (fun t => { t with input := t.input.dropLast })
      some ({ app with tabs := tabs1 }, false)
  | .pageUp =>
    match app.tabs.get? app.current_tab with
    | none => none
    | some _ =>
      let tabs1 := modifyIdx app.tabs app.current_tab
        (fun t => { t with scroll_offset := t.scroll_offset + 1 })
      some ({ app with tabs := tabs1 }, false)
  | .pageDown =>
    match app.tabs.get? app.current_tab with
    | none => none
    | some t =>
      let tabs1 :=
        if t.scroll_offset > 0 then
          modifyIdx app.tabs app.current_tab
            (fun u => { u with scroll_offset := u.scroll_offset - 1 })
        else app.tabs
      some ({ app with tabs := tabs1 }, false)
  | .other => some (app, false)

/-- The scroll reconciliation `App::render` performs after drawing, with the
message-window height `height` supplied by the terminal layout: if
`message_num < height + scroll_offset`, the current tab's scroll offset is
reset to `message_num - min height message_num`.  The drawing itself only
reads the state; `none` models the `tabs[current_tab]` indexing panic. -/
def App.render (app : App) (height : Nat) : Option App :=
  match app.tabs.get? app.current_tab with
  | none => none
  | some t =>
    let message_num := t.messages.length
    if message_num < height + t.scroll_offset then
      let tabs1 := modifyIdx app.tabs app.current_tab
        (fun u => { u with scroll_offset := message_num - min height message_num })
      some { app with tabs := tabs1 }
    else some app

/-- Iterated polling of one channel: feed a sequence of transport chunks
through `App::read_rtt_channel` over successive cycles. -/
def App.readSeq (app : App) (channel : Nat) (chunks : List (List UInt8)) :
    Option App :=
  chunks.foldlM (fun a c => a.read_rtt_channel channel (.ok c)) app

/-- A concrete writable tab with pending input `"ls"`, for counterexamples
and witnesses. -/
def demoShellTab : ChannelState :=
  { ChannelState.new "shell".toList 1 true with input := "ls".toList }

/-- A one-tab application holding `demoShellTab`. -/
def demoShellApp : App := mkApp [demoShellTab]

example : splitNl "abc\ndef\n".toList =
    ["abc".toList, "def".toList, []] := by decide

example : utf8Lossy (asciiBytes "ab".toList) = "ab".toList := by decide

example : utf8Lossy [0xFF, 0x41, 0xC3, 0x28] = [repl, 'A', repl, '('] := by
  decide

example : utf8Lossy [0xE2, 0x82, 0xAC] = ['€'] := by decide

example : utf8Lossy [0xE2, 0x82] = [repl] := by decide

theorem splitNl_ne_nil (s : Str) : splitNl s ≠ [] := by
  cases s with
  | nil => simp [splitNl]
  | cons c rest =>
    simp only [splitNl]
    split
    · simp
    · split <;> simp

theorem splitNl_newline (rest : Str) :
    splitNl ('\n' :: rest) = [] :: splitNl rest := by
  simp [splitNl]

theorem splitNl_cons (c : Char) (rest : Str) (hc : c ≠ '\n') :
    splitNl (c :: rest) =
      (c :: (splitNl rest).headD []) :: (splitNl rest).tail := by
  simp only [splitNl, if_neg hc]
  cases h : splitNl rest with
  | nil => exact absurd h (splitNl_ne_nil rest)
  | cons p ps => simp

theorem dropLast_cons_of_ne_nil' {α : Type} (a : α) {l : List α}
    (h : l ≠ []) : (a :: l).dropLast = a :: l.dropLast := by
  cases l with
  | nil => exact absurd rfl h
  | cons b m => rfl

theorem splitNl_length (s : Str) : (splitNl s).length = countNl s + 1 := by
  induction s with
  | nil => simp [splitNl, countNl]
  | cons c rest ih =>
    by_cases hc : c = '\n'
    · subst hc
      simp [splitNl_newline, countNl, ih, Nat.add_comm]
    · rw [splitNl_cons c rest hc]
      have hne := splitNl_ne_nil rest
      have : (splitNl rest).tail.length = (splitNl rest).length - 1 :=
        List.length_tail _
      simp only [List.length_cons, this, ih, countNl, if_neg hc]
      have : 1 ≤ (splitNl rest).length := by
        cases h : splitNl rest with
        | nil => exact absurd h hne
        | cons p ps => simp
      omega

theorem splitNl_append (s t : Str) :
    splitNl (s ++ t) =
      (splitNl s).dropLast ++ splitNl (((splitNl s).getLast?.getD []) ++ t) := by
  induction s with
  | nil => simp [splitNl]
  | cons c rest ih =>
    by_cases hc : c = '\n'
    · subst hc
      rw [List.cons_append, splitNl_newline, splitNl_newline, ih]
      cases h : splitNl rest with
      | nil => exact absurd h (splitNl_ne_nil rest)
      | cons p ps =>
        rw [dropLast_cons_of_ne_nil' _ (List.cons_ne_nil p ps),
          List.getLast?_cons_cons]
        simp
    · rw [List.cons_append, splitNl_cons c (rest ++ t) hc,
        splitNl_cons c rest hc, ih]
      cases h : splitNl rest with
      | nil => exact absurd h (splitNl_ne_nil rest)
      | cons p ps =>
        cases ps with
        | nil =>
          simp only [List.dropLast_single, List.getLast?_singleton,
            Option.getD_some, List.nil_append, List.headD_cons, List.tail_cons]
          rw [List.cons_append, splitNl_cons c (p ++ t) hc]
        | cons q ps' =>
          rw [dropLast_cons_of_ne_nil' p (List.cons_ne_nil q ps'),
            List.getLast?_cons_cons]
          simp only [List.headD_cons, List.tail_cons, List.cons_append]
          rw [dropLast_cons_of_ne_nil' (c :: p) (List.cons_ne_nil q ps'),
            List.getLast?_cons_cons]
          simp

theorem read_rtt_channel_single (t : ChannelState) (channel : Nat)
    (chunk : List UInt8) (hnum : t.number = channel) (hchunk : chunk ≠ []) :
    (mkApp [t]).read_rtt_channel channel (.ok chunk) =
      some (mkApp [{ t with
        messages := t.messages.dropLast ++
          splitNl ((t.messages.getLast?.getD []) ++ utf8Lossy chunk),
        scroll_offset :=
          if t.scroll_offset = 0 then t.scroll_offset
          else t.scroll_offset +
            ((splitNl ((t.messages.getLast?.getD []) ++ utf8Lossy chunk)).length
              - 1) }]) := by
  have hlen : ¬ chunk.length = 0 := by simpa using hchunk
  have hbeq : (t.number == channel) = true := by simp [hnum]
  cases hl : t.messages.getLast? with
  | none =>
    have hm : t.messages = [] := by
      cases hmm : t.messages with
      | nil => rfl
      | cons a l =>
        rw [hmm] at hl
        simp [List.getLast?_concat] at hl
    simp only [App.read_rtt_channel, mkApp, hlen, if_false, hl, hm,
      List.get?_cons_zero, updateFirstByNumber, hbeq, if_true, modifyIdx,
      List.getD, Option.getD_some]
    by_cases hs : t.scroll_offset = 0 <;>
      simp [hs, modifyIdx, List.getD]
  | some last =>
    simp only [App.read_rtt_channel, mkApp, hlen, if_false, hl,
      List.get?_cons_zero, updateFirstByNumber, hbeq, if_true, modifyIdx,
      List.getD, Option.getD_some]
    by_cases hs : t.scroll_offset = 0 <;>
      simp [hs, modifyIdx, List.getD]

theorem countNl_append (s u : Str) :
    countNl (s ++ u) = countNl s + countNl u := by
  induction s with
  | nil => simp [countNl]
  | cons c rest ih => simp [countNl, ih]; omega

theorem countNl_eq_zero {s : Str} (h : '\n' ∉ s) : countNl s = 0 := by
  induction s with
  | nil => rfl
  | cons c rest ih =>
    have hc : ¬ c = '\n' := fun hcc => h (hcc ▸ List.mem_cons_self c rest)
    have hr : '\n' ∉ rest := fun hm => h (List.mem_cons_of_mem c hm)
    simp [countNl, hc, ih hr]

theorem mem_of_getLast?_eq {α : Type} {l : List α} {a : α}
    (h : l.getLast? = some a) : a ∈ l := by
  induction l with
  | nil => simp at h
  | cons b rest ih =>
    cases rest with
    | nil =>
      simp [List.getLast?_singleton] at h
      simp [h]
    | cons c rest' =>
      rw [List.getLast?_cons_cons] at h
      exact List.mem_cons_of_mem b (ih h)

theorem readSeq_split_inv (t : ChannelState) (channel : Nat)
    (hnum : t.number = channel) (hscroll : t.scroll_offset = 0)
    (chunks : List (List UInt8)) (hall : ∀ c ∈ chunks, c ≠ []) (s : Str) :
    (mkApp [{ t with messages := splitNl s }]).readSeq channel chunks =
      some (mkApp [{ t with
        messages := splitNl (s ++ (chunks.map utf8Lossy).flatten) }]) := by
  induction chunks generalizing s with
  | nil => simp [App.readSeq]
  | cons c cs ih =>
    have hc : c ≠ [] := hall c (List.mem_cons_self c cs)
    have hcs : ∀ d ∈ cs, d ≠ [] := fun d hd => hall d (List.mem_cons_of_mem c hd)
    have hstep := read_rtt_channel_single { t with messages := splitNl s }
      channel c hnum hc
    rw [App.readSeq, List.foldlM_cons]
    have hgl : (splitNl s).getLast?.getD [] ∈ splitNl s := by
      cases hg : (splitNl s).getLast? with
      | none =>
        exact absurd ((List.getLast?_eq_none_iff).mp hg) (splitNl_ne_nil s)
      | some p => simpa using mem_of_getLast?_eq hg
    have hmsg : (splitNl s).dropLast ++
        splitNl ((splitNl s).getLast?.getD [] ++ utf8Lossy c) =
        splitNl (s ++ utf8Lossy c) := (splitNl_append s (utf8Lossy c)).symm
    rw [if_pos hscroll, hmsg] at hstep
    rw [hstep]
    have hrest := ih hcs (s ++ utf8Lossy c)
    rw [App.readSeq] at hrest
    simpa [List.append_assoc] using hrest

/-- C1 (code bug): `poll_rtt` is documented to poll every channel, but the
loop body only issues a transport read when the channel number equals 2; on
a registry of up channels 0 ("console") and 1 ("shell", writable) it
performs no read at all, whatever data the transport has available, and
leaves the state untouched. -/
theorem poll_rtt_skips_all_non2_channels (transport : Nat → ReadOutcome) :
    (mkApp [ChannelState.new "console".toList 0 false,
      ChannelState.new "shell".toList 1 true]).poll_rtt transport =
      some (mkApp [ChannelState.new "console".toList 0 false,
        ChannelState.new "shell".toList 1 true]) := rfl

/-- C9: a transport read that returns zero bytes is an early return: every
channel's log, scroll offset and input are left exactly as they were, and
no error is raised. -/
theorem empty_read_is_noop (app : App) (channel : Nat) :
    app.read_rtt_channel channel (.ok []) = some app := rfl

/-- C10: the chunk handed to reassembly is the slice `&rtt_buffer[..count]`
of the fixed 1024-byte read buffer, so every chunk fed to
`read_rtt_channel` has length at most 1024. -/
theorem read_chunk_length_le_1024 (app : App) (channel : Nat)
    (buffer : List UInt8) (count : Nat) (hbuf : buffer.length = rttBufferSize) :
    ∃ chunk, app.read_rtt_raw channel buffer count =
        app.read_rtt_channel channel (.ok chunk) ∧ chunk.length ≤ 1024 := by
  refine ⟨sliceChunk buffer count, rfl, ?_⟩
  simp only [sliceChunk, List.length_take, rttBufferSize] at *
  omega

theorem read_chunk_length_le_1024_witness :
    ∃ chunk, (mkApp [ChannelState.new [] 0 false]).read_rtt_raw 0
        (List.replicate 1024 (0 : UInt8)) 7 =
      (mkApp [ChannelState.new [] 0 false]).read_rtt_channel 0 (.ok chunk) ∧
      chunk.length ≤ 1024 :=
  read_chunk_length_le_1024 (mkApp [ChannelState.new [] 0 false]) 0
    (List.replicate 1024 (0 : UInt8)) 7 (by rw [List.length_replicate]; rfl)

/-- C2 (counterexample): feeding `"ab"`, `"c\nde"`, `"f\n"` to one channel
leaves the log `["abc", "def", ""]` — the code's split keeps the trailing
empty provisional entry after a terminator-closed chunk — not the
`["abc", "def"]` the claim's example demands. -/
theorem reassembly_example_has_trailing_empty :
    ((mkApp [ChannelState.new [] 0 false]).readSeq 0
        [asciiBytes "ab".toList, asciiBytes "c\nde".toList,
          asciiBytes "f\n".toList]).map
        (fun a => a.tabs.map (fun tb => tb.messages)) =
      some [["abc".toList, "def".toList, []]] ∧
    (["abc".toList, "def".toList, ([] : Str)] ≠
      ["abc".toList, "def".toList]) := by
  exact ⟨by decide, by decide⟩

/-- C2 (amended): for every nonempty sequence of nonempty byte chunks fed
to one channel, the log equals the Rust-style newline split of the
concatenated lossy-decoded chunks — every piece between terminators in
order, *including* the trailing (possibly empty) provisional piece; a
provisional last entry is popped and prepended to the next chunk, a
terminator-closed chunk leaves a trailing empty provisional entry. -/
theorem reassembly_chunk_invariant (name : Str) (num : Nat) (down : Bool)
    (chunks : List (List UInt8)) (hne : chunks ≠ [])
    (hall : ∀ c ∈ chunks, c ≠ []) :
    (mkApp [ChannelState.new name num down]).readSeq num chunks =
      some (mkApp [{ ChannelState.new name num down with
        messages := splitNl ((chunks.map utf8Lossy).flatten) }]) := by
  cases chunks with
  | nil => exact absurd rfl hne
  | cons c cs =>
    have hc : c ≠ [] := hall c (List.mem_cons_self c cs)
    have hcs : ∀ d ∈ cs, d ≠ [] :=
      fun d hd => hall d (List.mem_cons_of_mem c hd)
    have hstep := read_rtt_channel_single (ChannelState.new name num down)
      num c rfl hc
    rw [App.readSeq, List.foldlM_cons, hstep]
    have hrest := readSeq_split_inv (ChannelState.new name num down) num rfl
      rfl cs hcs (utf8Lossy c)
    rw [App.readSeq] at hrest
    simp only [ChannelState.new] at hrest ⊢
    simpa using hrest

theorem reassembly_chunk_invariant_witness :
    ([asciiBytes "a\nb".toList, asciiBytes "c\n".toList] ≠
        ([] : List (List UInt8))) ∧
    (mkApp [ChannelState.new "shell".toList 1 false]).readSeq 1
        [asciiBytes "a\nb".toList, asciiBytes "c\n".toList] =
      some (mkApp [{ ChannelState.new "shell".toList 1 false with
        messages := splitNl (([asciiBytes "a\nb".toList,
          asciiBytes "c\n".toList].map utf8Lossy).flatten) }]) :=
  ⟨by decide,
    reassembly_chunk_invariant "shell".toList 1 false
      [asciiBytes "a\nb".toList, asciiBytes "c\n".toList]
      (by decide) (by decide)⟩

theorem get?_modifyIdx {α : Type} (l : List α) (i : Nat) (f : α → α) :
    (modifyIdx l i f).get? i = (l.get? i).map f := by
  induction l generalizing i with
  | nil => simp [modifyIdx]
  | cons a rest ih =>
    cases i with
    | zero => simp [modifyIdx]
    | succ j => simpa [modifyIdx] using ih j

theorem modifyIdx_eq_self {α : Type} (l : List α) (i : Nat) (f : α → α)
    (h : ∀ a, l.get? i = some a → f a = a) : modifyIdx l i f = l := by
  induction l generalizing i with
  | nil => rfl
  | cons a rest ih =>
    cases i with
    | zero => rw [modifyIdx, h a rfl]
    | succ j => rw [modifyIdx, ih j (fun b hb => h b hb)]

/-- C3 (counterexample): on a writable tab with pending input `"ls"`, a
failed transport write sends `push_rtt` into the `unwrap` panic (modelled
`none`): the failure aborts instead of being surfaced to the caller. -/
theorem push_rtt_write_failure_panics :
    demoShellApp.push_rtt .err = none := rfl

/-- C3 (amended): `push_rtt` clears the current tab's input exactly when the
transport write succeeds; on a failed write the `unwrap` panics — the call
never returns, so nothing is surfaced to the caller — and at the panic
point the input buffer has not been cleared.  Without a down channel the
call is a no-op for any write outcome. -/
theorem push_rtt_clears_iff_ok (app : App) (t : ChannelState)
    (hget : app.tabs.get? app.current_tab = some t) :
    (t.has_down_channel = true →
      app.push_rtt .ok = some app.clearInput ∧
      app.push_rtt .err = none) ∧
    (t.has_down_channel = false → ∀ w, app.push_rtt w = some app) := by
  rw [List.get?_eq_getElem?] at hget
  constructor
  · intro hd
    constructor <;> simp [App.push_rtt, hget, hd]
  · intro hd w
    cases w <;> simp [App.push_rtt, hget, hd]

theorem push_rtt_clears_iff_ok_witness :
    (demoShellApp.tabs.get? demoShellApp.current_tab = some demoShellTab) ∧
    ((demoShellTab.has_down_channel = true →
      demoShellApp.push_rtt .ok = some demoShellApp.clearInput ∧
      demoShellApp.push_rtt .err = none) ∧
    (demoShellTab.has_down_channel = false →
      ∀ w, demoShellApp.push_rtt w = some demoShellApp)) :=
  ⟨rfl, push_rtt_clears_iff_ok demoShellApp demoShellTab rfl⟩

/-- C4 (counterexample): with tab 0 (scroll offset 5) selected and tab 1
(scroll offset 7) polled, a chunk `"a\n"` read for channel 1 bumps the
*selected* tab's offset to 6 and leaves the receiving channel's offset at
7; the claim demands offsets `[5, 8]` (receiving channel bumped by its one
newly completed line), but the code produces `[6, 7]`. -/
theorem scroll_bump_goes_to_current_tab :
    ((mkApp [{ ChannelState.new "a".toList 0 false with
        messages := ["x".toList], scroll_offset := 5 },
      { ChannelState.new "b".toList 1 false with
        messages := ["y".toList], scroll_offset := 7 }]).read_rtt_channel 1
        (.ok (asciiBytes "a\n".toList))).map
        (fun a => a.tabs.map (fun tb => tb.scroll_offset)) =
      some [6, 7] ∧ ([6, 7] : List Nat) ≠ [5, 8] := ⟨by decide, by decide⟩

/-- C4 (amended): the scroll adjustment in `read_rtt_channel` is applied to
the currently selected tab, not to the tab of the polled channel.  When the
polled channel *is* the selected tab (single-tab case) and no stored line
contains a terminator, a nonzero scroll offset is incremented by exactly
the number of line terminators in the decoded chunk — the newly completed
lines — and a zero scroll offset is left unchanged. -/
theorem scroll_increment_on_current_tab (t : ChannelState) (channel : Nat)
    (chunk : List UInt8) (hnum : t.number = channel) (hchunk : chunk ≠ [])
    (hclean : ∀ m ∈ t.messages, '\n' ∉ m) :
    ∃ t', (mkApp [t]).read_rtt_channel channel (.ok chunk) =
        some (mkApp [t']) ∧
      (t.scroll_offset = 0 → t'.scroll_offset = t.scroll_offset) ∧
      (t.scroll_offset ≠ 0 →
        t'.scroll_offset = t.scroll_offset + countNl (utf8Lossy chunk)) := by
  refine ⟨_, read_rtt_channel_single t channel chunk hnum hchunk, ?_, ?_⟩
  · intro h0
    simp [h0]
  · intro hne
    have h1 : countNl (t.messages.getLast?.getD []) = 0 := by
      cases hl : t.messages.getLast? with
      | none => simp [countNl]
      | some last =>
        simp only [Option.getD_some]
        exact countNl_eq_zero (hclean last (mem_of_getLast?_eq hl))
    simp only [if_neg hne, splitNl_length, countNl_append, h1]
    omega

theorem scroll_increment_on_current_tab_witness :
    (({ ChannelState.new "co".toList 3 false with
        messages := ["x".toList], scroll_offset := 4 } :
          ChannelState).number = 3) ∧
    ((asciiBytes "y\nz".toList : List UInt8) ≠ []) ∧
    (∀ m ∈ ({ ChannelState.new "co".toList 3 false with
        messages := ["x".toList], scroll_offset := 4 } :
          ChannelState).messages, '\n' ∉ m) ∧
    (∃ t', (mkApp [{ ChannelState.new "co".toList 3 false with
        messages := ["x".toList], scroll_offset := 4 }]).read_rtt_channel 3
          (.ok (asciiBytes "y\nz".toList)) = some (mkApp [t']) ∧
      (({ ChannelState.new "co".toList 3 false with
        messages := ["x".toList], scroll_offset := 4 } :
          ChannelState).scroll_offset = 0 →
        t'.scroll_offset = ({ ChannelState.new "co".toList 3 false with
          messages := ["x".toList], scroll_offset := 4 } :
            ChannelState).scroll_offset) ∧
      (({ ChannelState.new "co".toList 3 false with
        messages := ["x".toList], scroll_offset := 4 } :
          ChannelState).scroll_offset ≠ 0 →
        t'.scroll_offset = ({ ChannelState.new "co".toList 3 false with
          messages := ["x".toList], scroll_offset := 4 } :
            ChannelState).scroll_offset +
          countNl (utf8Lossy (asciiBytes "y\nz".toList)))) :=
  ⟨rfl, by decide, by decide,
    scroll_increment_on_current_tab _ 3 _ rfl (by decide) (by decide)⟩

/-- C5: after the post-draw reconciliation in `render` with message-window
height `height`, if `scroll_offset + height` exceeded the log length `n`
the offset is reset to `n - min height n`, i.e. `max 0 (n - height)`; and
whenever `n ≥ height`, the reconciled offset satisfies
`scroll_offset + height ≤ n` (it is a `Nat`, hence always `≥ 0`). -/
theorem render_reconciles_scroll (app : App) (height : Nat)
    (t : ChannelState) (hget : app.tabs.get? app.current_tab = some t) :
    ∃ app' t', app.render height = some app' ∧
      app'.current_tab = app.current_tab ∧
      app'.tabs.get? app'.current_tab = some t' ∧
      (t.scroll_offset + height > t.messages.length →
        (t'.scroll_offset : Int) = max 0 ((t.messages.length : Int) - height)) ∧
      (height ≤ t.messages.length →
        t'.scroll_offset + height ≤ t.messages.length) := by
  simp only [App.render, hget]
  by_cases hcond : t.messages.length < height + t.scroll_offset
  · rw [if_pos hcond]
    refine ⟨_, { t with scroll_offset :=
      t.messages.length - min height t.messages.length }, rfl, rfl, ?_, ?_, ?_⟩
    · rw [get?_modifyIdx, hget]
      rfl
    · intro _
      simp only []
      omega
    · intro hle
      simp only []
      omega
  · rw [if_neg hcond]
    exact ⟨app, t, rfl, rfl, hget, fun hgt => absurd hgt (by omega),
      fun hle => by omega⟩

theorem render_reconciles_scroll_witness :
    ((mkApp [{ ChannelState.new "co".toList 0 false with
        messages := ["a".toList, "b".toList], scroll_offset := 5 }]).tabs.get?
        (mkApp [{ ChannelState.new "co".toList 0 false with
          messages := ["a".toList, "b".toList],
          scroll_offset := 5 }]).current_tab =
      some { ChannelState.new "co".toList 0 false with
        messages := ["a".toList, "b".toList], scroll_offset := 5 }) ∧
    (∃ app' t', (mkApp [{ ChannelState.new "co".toList 0 false with
        messages := ["a".toList, "b".toList],
        scroll_offset := 5 }]).render 1 = some app' ∧
      app'.current_tab = (mkApp [{ ChannelState.new "co".toList 0 false with
        messages := ["a".toList, "b".toList],
        scroll_offset := 5 }]).current_tab ∧
      app'.tabs.get? app'.current_tab = some t' ∧
      (({ ChannelState.new "co".toList 0 false with
          messages := ["a".toList, "b".toList], scroll_offset := 5 } :
            ChannelState).scroll_offset + 1 >
          (["a".toList, "b".toList] : List Str).length →
        (t'.scroll_offset : Int) =
          max 0 (((["a".toList, "b".toList] : List Str).length : Int) - 1)) ∧
      (1 ≤ (["a".toList, "b".toList] : List Str).length →
        t'.scroll_offset + 1 ≤ (["a".toList, "b".toList] : List Str).length)) :=
  ⟨rfl, render_reconciles_scroll _ 1 _ rfl⟩

/-- C6: a function-key selection `F(n)` (1-indexed) sets the active tab to
`n - 1` exactly when that is a valid index; an out-of-range request leaves
the active tab unchanged and raises no error. -/
theorem fkey_select_in_range_or_noop (app : App) (n : Nat)
    (w : WriteOutcome) (hn : 1 ≤ n) :
    (n - 1 < app.tabs.length →
      app.handle_event (.F n) w =
        some ({ app with current_tab := n - 1 }, false)) ∧
    (app.tabs.length ≤ n - 1 →
      app.handle_event (.F n) w = some (app, false)) := by
  have hn0 : ¬ n = 0 := by omega
  constructor
  · intro h
    simp [App.handle_event, hn0, h]
  · intro h
    have h2 : ¬ (n - 1 < app.tabs.length) := by omega
    simp [App.handle_event, hn0, h2]

theorem fkey_select_in_range_or_noop_witness :
    (1 ≤ 5) ∧
    ((5 - 1 < (mkApp [ChannelState.new [] 0 false]).tabs.length →
      (mkApp [ChannelState.new [] 0 false]).handle_event (.F 5) .ok =
        some ({ mkApp [ChannelState.new [] 0 false] with
          current_tab := 5 - 1 }, false)) ∧
    ((mkApp [ChannelState.new [] 0 false]).tabs.length ≤ 5 - 1 →
      (mkApp [ChannelState.new [] 0 false]).handle_event (.F 5) .ok =
        some (mkApp [ChannelState.new [] 0 false], false))) :=
  ⟨by omega, fkey_select_in_range_or_noop (mkApp [ChannelState.new [] 0 false])
    5 .ok (by omega)⟩

/-- C7 (counterexample): typing `'a'` on a channel with no down channel
(not writable) still appends to its input buffer — the handler never checks
writability — refuting "type_char ... no-ops on a channel that is not
writable". -/
theorem type_char_on_readonly_mutates :
    ((mkApp [ChannelState.new "console".toList 0 false]).handle_event
        (.char 'a') .ok).map (fun p => p.1.tabs.map (fun tb => tb.input)) =
      some [['a']] ∧ (['a'] : Str) ≠ ([] : Str) := ⟨by decide, by decide⟩

/-- C7 (amended): `type_char` and `backspace` mutate the current tab's
input buffer regardless of writability (the `has_down_channel` flag only
gates rendering of the input box and submit): a non-newline character is
appended, backspace drops the last character, and backspace on an empty
input buffer is a harmless no-op, never an error. -/
theorem type_char_and_backspace_mutate (app : App) (t : ChannelState)
    (c : Char) (w : WriteOutcome)
    (hget : app.tabs.get? app.current_tab = some t) (hc : c ≠ '\n') :
    (app.handle_event (.char c) w).map
        (fun p => (p.1.tabs.get? app.current_tab, p.2)) =
      some (some { t with input := t.input ++ [c] }, false) ∧
    (app.handle_event .backspace w).map
        (fun p => (p.1.tabs.get? app.current_tab, p.2)) =
      some (some { t with input := t.input.dropLast }, false) ∧
    (t.input = [] → app.handle_event .backspace w = some (app, false)) := by
  refine ⟨?_, ?_, ?_⟩
  · simp only [App.handle_event, if_neg hc, hget, Option.map_some']
    rw [get?_modifyIdx, hget]
    rfl
  · simp only [App.handle_event, hget, Option.map_some']
    rw [get?_modifyIdx, hget]
    rfl
  · intro hinp
    have hfix : modifyIdx app.tabs app.current_tab
        (fun u => { u with input := u.input.dropLast }) = app.tabs := by
      apply modifyIdx_eq_self
      intro a ha
      have hat : a = t := by
        rw [hget] at ha
        exact (Option.some.inj ha).symm
      subst hat
      cases a with
      | mk nm num dn ms inp sc =>
        have hinp2 : inp = [] := hinp
        subst hinp2
        rfl
    simp only [App.handle_event, hget, hfix]

theorem type_char_and_backspace_mutate_witness :
    (demoShellApp.tabs.get? demoShellApp.current_tab = some demoShellTab) ∧
    ('x' ≠ '\n') ∧
    ((demoShellApp.handle_event (.char 'x') .ok).map
        (fun p => (p.1.tabs.get? demoShellApp.current_tab, p.2)) =
      some (some { demoShellTab with
        input := demoShellTab.input ++ ['x'] }, false) ∧
    (demoShellApp.handle_event .backspace .ok).map
        (fun p => (p.1.tabs.get? demoShellApp.current_tab, p.2)) =
      some (some { demoShellTab with
        input := demoShellTab.input.dropLast }, false) ∧
    (demoShellTab.input = [] →
      demoShellApp.handle_event .backspace .ok = some (demoShellApp, false))) :=
  ⟨rfl, by decide,
    type_char_and_backspace_mutate demoShellApp demoShellTab 'x' .ok rfl
      (by decide)⟩

/-- C8: reassembly never fails on malformed bytes: for every nonempty
chunk, `read_rtt_channel` returns normally (no error, no panic) with the
log extended and nonempty — the decode is the total `utf8Lossy`; moreover
every invalid lead byte (`0x80..=0xC1` or `0xF5..=0xFF`) is replaced by
the visible substitution character U+FFFD and decoding continues, as on
the concrete malformed input `FF 41 C3 28`. -/
theorem reassembly_total_on_invalid_utf8 (t : ChannelState) (channel : Nat)
    (chunk : List UInt8) (hnum : t.number = channel) (hchunk : chunk ≠ []) :
    (∃ t', (mkApp [t]).read_rtt_channel channel (.ok chunk) =
        some (mkApp [t']) ∧
      t.messages.length ≤ t'.messages.length ∧ t'.messages ≠ []) ∧
    (∀ (b : UInt8) (rest : List UInt8),
      ((0x80 ≤ b.toNat ∧ b.toNat < 0xC2) ∨ 0xF5 ≤ b.toNat) →
        utf8Lossy (b :: rest) = repl :: utf8Lossy rest) ∧
    utf8Lossy [0xFF, 0x41, 0xC3, 0x28] = [repl, 'A', repl, '('] := by
  refine ⟨⟨_, read_rtt_channel_single t channel chunk hnum hchunk, ?_, ?_⟩,
    ?_, by decide⟩
  · simp only [List.length_append, List.length_dropLast, splitNl_length]
    omega
  · intro hcontra
    simp only [List.append_eq_nil] at hcontra
    exact splitNl_ne_nil _ hcontra.2
  · intro b rest h
    rcases h with ⟨h1, h2⟩ | h3
    · have hA : ¬ b.toNat < 0x80 := by omega
      have hB : b.toNat < 0xC2 := by omega
      rw [utf8Lossy.eq_def]
      simp [hA, hB]
    · have hA : ¬ b.toNat < 0x80 := by omega
      have hB : ¬ b.toNat < 0xC2 := by omega
      have hC : ¬ b.toNat ≤ 0xDF := by omega
      have hD : ¬ b.toNat ≤ 0xEF := by omega
      have hE : ¬ b.toNat ≤ 0xF4 := by omega
      rw [utf8Lossy.eq_def]
      simp [hA, hB, hC, hD, hE]

theorem reassembly_total_on_invalid_utf8_witness :
    ((ChannelState.new "co".toList 2 false).number = 2) ∧
    (([0xFF, 0xFE] : List UInt8) ≠ []) ∧
    ((∃ t', (mkApp [ChannelState.new "co".toList 2 false]).read_rtt_channel 2
          (.ok [0xFF, 0xFE]) = some (mkApp [t']) ∧
      (ChannelState.new "co".toList 2 false).messages.length ≤
        t'.messages.length ∧ t'.messages ≠ []) ∧
    (∀ (b : UInt8) (rest : List UInt8),
      ((0x80 ≤ b.toNat ∧ b.toNat < 0xC2) ∨ 0xF5 ≤ b.toNat) →
        utf8Lossy (b :: rest) = repl :: utf8Lossy rest) ∧
    utf8Lossy [0xFF, 0x41, 0xC3, 0x28] = [repl, 'A', repl, '(']) :=
  ⟨rfl, by decide,
    reassembly_total_on_invalid_utf8 (ChannelState.new "co".toList 2 false) 2
      [0xFF, 0xFE] rfl (by decide)⟩
